import Mathlib

/-!
Shallow embedding of `libopenage/error/stackanalyzer.cpp` (openage).

The file models the three build-time backends of `StackAnalyzer`:
  * the libbacktrace backend (`WITH_BACKTRACE`): capture via `backtrace_simple`
    and resolution via `backtrace_pcinfo` / `backtrace_syminfo`,
  * the Windows backend (`RtlCaptureStackBackTrace`),
  * the POSIX backend (GNU `execinfo.h` `backtrace`),
together with the backend-agnostic `trim_to_current_stack_frame`.

Addresses are uninterpreted machine words, modelled as `Nat`.  The external
platform primitives (libbacktrace queries, `util::symbol_name`,
`util::demangle`) are modelled as an explicit environment: for each
program counter the environment fixes which callbacks the library would
invoke and with which arguments; the Lean definitions then reproduce,
step by step, what the C++ callback bodies do with those arguments.
`std::vector::pop_back` on an empty vector is undefined behaviour in C++;
the model makes that case observable by returning `none`.
-/

set_option autoImplicit false

namespace Openage

/-- An uninterpreted instruction-pointer address (`void *` in the C++ source). -/
abbrev Addr := Nat

/-- Model of `struct backtrace_symbol`: one resolved record — filename (empty if
unknown), line number (0 if unknown), function name, originating address. -/
structure backtrace_symbol where
  filename : String
  lineno : Nat
  functionname : String
  pc : Addr
deriving DecidableEq, Repr, Inhabited

/-- Constant `skip_entry_frames = 1` (a `constexpr uint64_t`) — frames removed at the
least-recent end of a POSIX capture. -/
def skip_entry_frames : Nat := 1

/-- Constant `base_skip_frames = 1` (a `constexpr uint64_t`) — frames skipped at the
most-recent end of every capture. -/
def base_skip_frames : Nat := 1

/-- Outcome, fixed by the environment, of one `backtrace_pcinfo` library query:
either the library invokes the full callback once per entry of `calls`
(filename pointer, line number, function pointer — `none` models a null
pointer), or it invokes the error callback once with `msg` and `errorno`. -/
inductive PcinfoOutcome where
  | info (calls : List (Option String × Nat × Option String))
  | fail (msg : String) (errorno : Int)
deriving Repr

/-- Outcome of one `backtrace_syminfo` library query: either the symbol-table
callback with the (possibly null) symbol name, or the error callback. -/
inductive SyminfoOutcome where
  | found (symname : Option String)
  | fail (msg : String) (errorno : Int)
deriving Repr

/-- The external collaborators of the libbacktrace backend: per-address
behaviour of `backtrace_pcinfo` and `backtrace_syminfo`, plus the utilities
`util::symbol_name(pc, false, true)` and `util::demangle`. -/
structure BacktraceEnv where
  pcinfo : Addr → PcinfoOutcome
  syminfo : Addr → SyminfoOutcome
  symbol_name : Addr → String
  demangle : String → String

/-- A message delivered to `backtrace_error_callback` (stackanalyzer.cpp:51-53),
which only logs — the diagnostic side channel. -/
structure LogEntry where
  msg : String
  errorno : Int
deriving DecidableEq, Repr

/-- Model of `backtrace_simple_callback` (stackanalyzer.cpp:72-77): pushes the frame's
pc onto the analyzer's `stack_addrs` and returns 0 (continue walking). -/
def backtrace_simple_callback (stack_addrs : List Addr) (pc : Addr) : List Addr :=
  stack_addrs ++ [pc]

/-- Model of `StackAnalyzer::analyze` (stackanalyzer.cpp:147-154, `WITH_BACKTRACE`):
`backtrace_simple` walks the current stack beyond `base_skip_frames` and
invokes `backtrace_simple_callback` once per remaining frame; `frames` is
that post-skip address sequence, most-recent call first. -/
def analyze_backtrace (stack_addrs frames : List Addr) : List Addr :=
  frames.foldl backtrace_simple_callback stack_addrs

/-- Model of `backtrace_pcinfo_callback` (stackanalyzer.cpp:100-122): the record one
full-info callback invocation appends — `util::symbol_name` when the function
pointer is null, otherwise filename (or "" for null), the line number, and the
demangled function name. -/
def backtrace_pcinfo_callback (env : BacktraceEnv) (pc : Addr)
    (filename : Option String) (lineno : Nat) (function : Option String) :
    backtrace_symbol :=
  match function with
  | none => ⟨"", 0, env.symbol_name pc, pc⟩
  | some f => ⟨filename.getD "", lineno, env.demangle f, pc⟩

/-- Model of `backtrace_syminfo_callback` (stackanalyzer.cpp:80-96): no filename or
line info; the demangled symbol name, or "" when the name pointer is null. -/
def backtrace_syminfo_callback (env : BacktraceEnv) (pc : Addr)
    (symname : Option String) : backtrace_symbol :=
  ⟨"", 0, (match symname with | none => "" | some s => env.demangle s), pc⟩

/-- Model of `backtrace_pcinfo_error_callback` (stackanalyzer.cpp:125-142): errorno -1
is the distinguished "no debug info in ELF file" condition and retries with
`backtrace_syminfo`; any other errorno goes to the general error callback,
which only logs.  Returns the records appended and the log entries emitted. -/
def backtrace_pcinfo_error_callback (env : BacktraceEnv) (pc : Addr)
    (msg : String) (errorno : Int) : List backtrace_symbol × List LogEntry :=
  if errorno = -1 then
    match env.syminfo pc with
    | .found symname => ([backtrace_syminfo_callback env pc symname], [])
    | .fail m e => ([], [⟨m, e⟩])
  else ([], [⟨msg, errorno⟩])

/-- One iteration of the resolution loop in `StackAnalyzer::get_symbols`
(stackanalyzer.cpp:160-172): the `backtrace_pcinfo` query for a single pc,
dispatched to `backtrace_pcinfo_callback` or
`backtrace_pcinfo_error_callback`. -/
def backtrace_pcinfo (env : BacktraceEnv) (pc : Addr) :
    List backtrace_symbol × List LogEntry :=
  match env.pcinfo pc with
  | .info calls =>
      (calls.map (fun c => backtrace_pcinfo_callback env pc c.1 c.2.1 c.2.2), [])
  | .fail msg errorno => backtrace_pcinfo_error_callback env pc msg errorno

/-- The element sequence a backward index loop
`for (size_t idx = xs.size(); idx-- > 0;) cb(xs[idx]);` delivers. -/
def emit_backward {α : Type} [Inhabited α] (xs : List α) : Nat → List α
  | 0 => []
  | i + 1 => xs.getD i default :: emit_backward xs i

/-- Model of `StackAnalyzer::get_symbols` (stackanalyzer.cpp:157-185,
`WITH_BACKTRACE`): resolve every captured address in capture order into
`info_cb_data.symbols`, then deliver the records to the callback forward, or
by a backward index loop when `reversed` is set.  Returns the record sequence
in delivery order. -/
def get_symbols_backtrace (env : BacktraceEnv) (stack_addrs : List Addr)
    (reversed : Bool) : List backtrace_symbol :=
  let symbols := stack_addrs.flatMap (fun pc => (backtrace_pcinfo env pc).1)
  if reversed then emit_backward symbols symbols.length else symbols

/-- The record the fallback `get_symbols` builds for one pc: filename "",
lineno 0, function name from `util::symbol_name(pc, false, true)`. -/
def fallback_symbol (symbol_name : Addr → String) (pc : Addr) : backtrace_symbol :=
  ⟨"", 0, symbol_name pc, pc⟩

/-- Model of `StackAnalyzer::get_symbols` (stackanalyzer.cpp:264-289, fallback
backends): iterate `stack_addrs` forward, or backward by index when
`reversed` is set, resolving each pc via `util::symbol_name` only. -/
def get_symbols_fallback (symbol_name : Addr → String) (stack_addrs : List Addr)
    (reversed : Bool) : List backtrace_symbol :=
  if reversed then
    (emit_backward stack_addrs stack_addrs.length).map (fallback_symbol symbol_name)
  else
    stack_addrs.map (fallback_symbol symbol_name)

/-- Iterated `pop_back` of a `std::vector`, applied `n` times; `none` marks a pop on an
empty vector, which is undefined behaviour in C++. -/
def pop_back_n (l : List Addr) : Nat → Option (List Addr)
  | 0 => some l
  | n + 1 => if l = [] then none else pop_back_n l.dropLast n

/-- The GNU `backtrace` primitive: writes the call stack into a buffer of
capacity `size` and returns the number of entries written — the full frame
count when it fits, else the capacity (truncation is not reported). -/
def backtrace_prim (frames : List Addr) (size : Nat) : Nat :=
  min frames.length size

/-- The buffer-doubling loop of the POSIX `StackAnalyzer::analyze`
(stackanalyzer.cpp:223-236): call `backtrace`, stop (shrinking the buffer to
the reported count) once the count is strictly below the capacity, else
double the capacity and retry.  `fuel` bounds the retries;
`frames.length + 1` always suffices. -/
def analyze_posix_loop (frames : List Addr) : Nat → Nat → List Addr
  | 0, size => frames.take (backtrace_prim frames size)
  | fuel + 1, size =>
    if backtrace_prim frames size < size then
      frames.take (backtrace_prim frames size)
    else
      analyze_posix_loop frames fuel (size * 2)

/-- The storing loop of the POSIX `StackAnalyzer::analyze`
(stackanalyzer.cpp:240-249): walk the buffer with a counter `idx`, pushing
every element of index ≥ `m` onto the accumulated `stack_addrs`. -/
def store_loop (m : Nat) : List Addr → List Addr → Nat → List Addr
  | [], stack_addrs, _ => stack_addrs
  | element :: rest, stack_addrs, idx =>
    store_loop m rest
      (if idx ≥ m then stack_addrs ++ [element] else stack_addrs) (idx + 1)

/-- Model of `StackAnalyzer::analyze` (stackanalyzer.cpp:219-255, POSIX backend): grow
the buffer (initial capacity 64) until `backtrace` reports a count strictly
below the capacity, then push every buffer element of index ≥
`base_skip_frames` onto `stack_addrs`, and finally pop `skip_entry_frames`
entries off the back.  `none` marks the undefined `pop_back` on an empty
vector. -/
def analyze_posix (stack_addrs frames : List Addr) : Option (List Addr) :=
  let buffer := analyze_posix_loop frames (frames.length + 1) 64
  let stored := store_loop base_skip_frames buffer stack_addrs 0
  pop_back_n stored skip_entry_frames

set_option linter.unusedVariables false in
/-- Model of `StackAnalyzer::analyze` (stackanalyzer.cpp:199-206, Windows backend):
`RtlCaptureStackBackTrace` fills at most 64 buffer slots (the skip count is
its native argument, so `frames` is the post-skip sequence), the buffer is
shrunk to the reported count when below 64, and the result replaces
`stack_addrs` wholesale (the prior content is irrelevant). -/
def analyze_win32 (stack_addrs frames : List Addr) : List Addr :=
  let count := backtrace_prim frames 64
  if count < 64 then frames.take count else frames.take 64

/-- An environment in which the library reports a general internal error
(errorno 5, not the distinguished -1) for every address. -/
def env_internal_error : BacktraceEnv where
  pcinfo := fun _ => .fail "malformed debug section" 5
  syminfo := fun _ => .found (some "mangled_name")
  symbol_name := fun _ => "generic_name"
  demangle := fun s => s

/-- An environment in which debug info is entirely absent (errorno -1) but
the symbol table resolves every address. -/
def env_no_debug_info : BacktraceEnv where
  pcinfo := fun _ => .fail "no debug info" (-1)
  syminfo := fun _ => .found (some "mangled_name")
  symbol_name := fun _ => "generic_name"
  demangle := fun s => s

/-- An environment for a stripped binary: debug info entirely absent
(errorno -1) and the symbol table yields nothing (null symbol name), while
the generic utility would still produce a name. -/
def env_stripped : BacktraceEnv where
  pcinfo := fun _ => .fail "no debug info" (-1)
  syminfo := fun _ => .found none
  symbol_name := fun _ => "generic_name"
  demangle := fun s => s

/-- An environment whose debug info resolves every address fully. -/
def env_full_info : BacktraceEnv where
  pcinfo := fun _ => .info [(some "file.cpp", 42, some "mangled_name")]
  syminfo := fun _ => .found (some "other_name")
  symbol_name := fun _ => "generic_name"
  demangle := fun s => s

/-- An environment whose debug info succeeds but with a null function name. -/
def env_info_no_function : BacktraceEnv where
  pcinfo := fun _ => .info [(none, 0, none)]
  syminfo := fun _ => .found (some "other_name")
  symbol_name := fun _ => "generic_name"
  demangle := fun s => s

/-- One-step bounded form of the `while` loop in
`StackAnalyzer::trim_to_current_stack_frame` (stackanalyzer.cpp:304-311):
while both sequences are non-empty and their back elements are equal, pop
both backs; stop at the first mismatch or exhaustion.  Each iteration pops
one element off `self`, so `fuel = self.length` always suffices. -/
def trim_loop (fuel : Nat) (self current : List Addr) : List Addr :=
  match fuel with
  | 0 => self
  | fuel + 1 =>
    if hc : current = [] then self
    else if hs : self = [] then self
    else if self.getLast hs = current.getLast hc then
      trim_loop fuel self.dropLast current.dropLast
    else self

/-- Model of `StackAnalyzer::trim_to_current_stack_frame` (stackanalyzer.cpp:300-312),
with the receiver's `stack_addrs` as `self` and the freshly captured
comparison stack as `current`; returns the receiver's remaining sequence. -/
def trim_to_current_stack_frame (self current : List Addr) : List Addr :=
  trim_loop self.length self current

theorem trim_example1 : trim_to_current_stack_frame [1, 2, 3] [9, 2, 3] = [1] := by
  decide

theorem trim_example2 : trim_to_current_stack_frame [1, 2] [3, 4] = [1, 2] := by
  decide

theorem trim_example3 : trim_to_current_stack_frame [2, 3] [1, 2, 3] = [] := by
  decide

/-- A non-empty suffix ends in the same element as the whole list. -/
theorem suffix_getLast {t l : List Addr} (hsuf : t <:+ l) (ht : t ≠ []) (hl : l ≠ []) :
    t.getLast ht = l.getLast hl := by
  obtain ⟨u, rfl⟩ := hsuf
  exact (List.getLast_append' u t ht).symm

/-- Dropping the last element preserves the suffix relation for non-empty suffixes. -/
theorem suffix_dropLast {t l : List Addr} (hsuf : t <:+ l) (ht : t ≠ []) :
    t.dropLast <:+ l.dropLast := by
  obtain ⟨u, rfl⟩ := hsuf
  refine ⟨u, ?_⟩
  conv_rhs => rw [← List.dropLast_append_getLast ht, ← List.append_assoc, List.dropLast_concat]

/-- Master specification of the pop-both-backs loop: with enough fuel, the loop
removes from `self` precisely a common suffix `s` of `self` and `current` that
is maximal among all common suffixes. -/
theorem trim_loop_spec (fuel : Nat) :
    ∀ self current : List Addr, self.length ≤ fuel →
    ∃ s : List Addr, trim_loop fuel self current ++ s = self ∧ s <:+ current ∧
      ∀ t : List Addr, t <:+ self → t <:+ current → t <:+ s := by
  induction fuel with
  | zero =>
    intro self current hlen
    have hself : self = [] := List.length_eq_zero.mp (Nat.le_zero.mp hlen)
    subst hself
    refine ⟨[], rfl, List.nil_suffix, ?_⟩
    intro t ht _
    rw [List.suffix_nil.mp ht]
  | succ fuel ih =>
    intro self current hlen
    rw [trim_loop]
    by_cases hc : current = []
    · rw [dif_pos hc]
      subst hc
      refine ⟨[], List.append_nil _, List.nil_suffix, ?_⟩
      intro t _ ht2
      rw [List.suffix_nil.mp ht2]
    · rw [dif_neg hc]
      by_cases hs : self = []
      · rw [dif_pos hs]
        subst hs
        refine ⟨[], rfl, List.nil_suffix, ?_⟩
        intro t ht1 _
        rw [List.suffix_nil.mp ht1]
      · rw [dif_neg hs]
        by_cases heq : self.getLast hs = current.getLast hc
        · rw [if_pos heq]
          have hlen2 : self.dropLast.length ≤ fuel := by
            have hpos : 0 < self.length := List.length_pos.mpr hs
            simp only [List.length_dropLast]
            omega
          obtain ⟨s, hcat, hsfx, hmax⟩ := ih self.dropLast current.dropLast hlen2
          refine ⟨s ++ [self.getLast hs], ?_, ?_, ?_⟩
          · rw [← List.append_assoc, hcat, List.dropLast_append_getLast hs]
          · obtain ⟨u, hu⟩ := hsfx
            refine ⟨u, ?_⟩
            rw [← List.append_assoc, hu, heq, List.dropLast_append_getLast hc]
          · intro t ht1 ht2
            rcases eq_or_ne t [] with rfl | htne
            · exact List.nil_suffix
            · have htl1 : t.getLast htne = self.getLast hs := suffix_getLast ht1 htne hs
              have hdl1 : t.dropLast <:+ self.dropLast := suffix_dropLast ht1 htne
              have hdl2 : t.dropLast <:+ current.dropLast := suffix_dropLast ht2 htne
              obtain ⟨v, hv⟩ := hmax t.dropLast hdl1 hdl2
              refine ⟨v, ?_⟩
              conv_lhs => rw [← List.dropLast_append_getLast htne]
              rw [← List.append_assoc, hv, htl1]
        · rw [if_neg heq]
          refine ⟨[], List.append_nil _, List.nil_suffix, ?_⟩
          intro t ht1 ht2
          rcases eq_or_ne t [] with rfl | htne
          · exact List.suffix_refl []
          · have h1 := suffix_getLast ht1 htne hs
            have h2 := suffix_getLast ht2 htne hc
            exact absurd (h1.symm.trans h2) heq

/-- A list decomposition `l ++ s = self` pins `l` down as a front segment. -/
theorem append_eq_take (l s self : List Addr) (h : l ++ s = self) :
    l = self.take (self.length - s.length) := by
  subst h
  have hl : (l ++ s).length - s.length = l.length := by simp
  rw [hl, List.take_left]

/-- C4: `trim_to_current_stack_frame` removes from the receiver exactly its
longest common suffix with the freshly captured comparison stack — the removed
part is a common suffix of both sequences and every common suffix is a suffix
of it — and when the receiver is a suffix of the comparison stack the receiver
ends up empty. -/
theorem trim_removes_longest_common_suffix (self current : List Addr) :
    (∃ s : List Addr, trim_to_current_stack_frame self current ++ s = self ∧
      s <:+ current ∧
      ∀ t : List Addr, t <:+ self → t <:+ current → t <:+ s) ∧
    (self <:+ current → trim_to_current_stack_frame self current = []) := by
  obtain ⟨s, hcat, hsfx, hmax⟩ :=
    trim_loop_spec self.length self current (Nat.le_refl _)
  refine ⟨⟨s, hcat, hsfx, hmax⟩, ?_⟩
  intro hself
  have h1 : self <:+ s := hmax self (List.suffix_refl _) hself
  have h2 : s <:+ self := ⟨trim_to_current_stack_frame self current, hcat⟩
  have hse : s = self := List.IsSuffix.eq_of_length h2
    (Nat.le_antisymm h2.length_le h1.length_le)
  rw [hse] at hcat
  have hlen : (trim_to_current_stack_frame self current).length + self.length
      = self.length := by
    simpa using congrArg List.length hcat
  have hzero : (trim_to_current_stack_frame self current).length = 0 := by omega
  exact List.length_eq_zero.mp hzero

/-- C4 witness: the general theorem applied at a concrete pair of stacks. -/
theorem trim_removes_longest_common_suffix_witness :
    (∃ s : List Addr, trim_to_current_stack_frame [1, 2, 3] [9, 2, 3] ++ s = [1, 2, 3] ∧
      s <:+ [9, 2, 3] ∧
      ∀ t : List Addr, t <:+ [1, 2, 3] → t <:+ [9, 2, 3] → t <:+ s) ∧
    ([1, 2, 3] <:+ ([9, 2, 3] : List Addr) →
      trim_to_current_stack_frame [1, 2, 3] [9, 2, 3] = []) :=
  trim_removes_longest_common_suffix [1, 2, 3] [9, 2, 3]

/-- C5 counterexample: with A = B = [0, 1, 2, 3] the back 3 addresses of A
equal the back 3 addresses of B, yet trimming removes all 4 entries, not
exactly those 3. -/
theorem trim_back3_counterexample :
    [1, 2, 3] <:+ ([0, 1, 2, 3] : List Addr) ∧
    [1, 2, 3] <:+ ([0, 1, 2, 3] : List Addr) ∧
    (trim_to_current_stack_frame [0, 1, 2, 3] [0, 1, 2, 3]).length ≠
      ([0, 1, 2, 3] : List Addr).length - 3 := by
  decide

/-- C5 (amended): for stacks with no addresses in common, trimming leaves the
receiver unchanged; and when the back 3 addresses agree and no common suffix
is longer than 3, trimming removes exactly those 3 entries. -/
theorem trim_disjoint_and_back3 (A B : List Addr) :
    ((∀ x ∈ A, x ∉ B) → trim_to_current_stack_frame A B = A) ∧
    (∀ s : List Addr, s.length = 3 → s <:+ A → s <:+ B →
      (∀ t : List Addr, t <:+ A → t <:+ B → t.length ≤ 3) →
      trim_to_current_stack_frame A B ++ s = A) := by
  obtain ⟨s₀, hcat, hsfx, hmax⟩ := trim_loop_spec A.length A B (Nat.le_refl _)
  have hsA : s₀ <:+ A := ⟨trim_to_current_stack_frame A B, hcat⟩
  constructor
  · intro hdisj
    rcases eq_or_ne s₀ [] with rfl | hne
    · simpa using hcat
    · obtain ⟨x, hx⟩ := List.exists_mem_of_ne_nil s₀ hne
      exact absurd (hsfx.subset hx) (hdisj x (hsA.subset hx))
  · intro s hs3 hsufA hsufB hbound
    have hle : s <:+ s₀ := hmax s hsufA hsufB
    have hlen : s.length = s₀.length :=
      Nat.le_antisymm hle.length_le (hs3 ▸ hbound s₀ hsA hsfx)
    rw [List.IsSuffix.eq_of_length hle hlen] at hs3 ⊢
    exact hcat

/-- C5 witness: concrete disjoint stacks, and concrete stacks agreeing in
exactly their back 3 addresses. -/
theorem trim_disjoint_and_back3_witness :
    trim_to_current_stack_frame [1, 2] [3, 4] = [1, 2] ∧
    trim_to_current_stack_frame [0, 5, 6, 7] [9, 5, 6, 7] ++ [5, 6, 7]
      = [0, 5, 6, 7] := by
  constructor
  · exact (trim_disjoint_and_back3 [1, 2] [3, 4]).1 (by decide)
  · refine (trim_disjoint_and_back3 [0, 5, 6, 7] [9, 5, 6, 7]).2
      [5, 6, 7] (by decide) (by decide) (by decide) ?_
    intro t h1 h2
    by_contra hgt
    push_neg at hgt
    have h4 : t.length ≤ 4 := by simpa using h1.length_le
    have ht4 : t.length = 4 := by omega
    have hA : t = [0, 5, 6, 7] :=
      List.IsSuffix.eq_of_length h1 (by simpa using ht4)
    have hB : t = [9, 5, 6, 7] :=
      List.IsSuffix.eq_of_length h2 (by simpa using ht4)
    exact absurd (hA.symm.trans hB) (by decide)

/-- C10: the trim loop terminates after at most
`min (length receiver) (length comparison)` pops: the result is the receiver
with `n` entries removed from the back, where `n` is bounded by both lengths. -/
theorem trim_terminates_bounded (self current : List Addr) :
    ∃ n : Nat, n ≤ min self.length current.length ∧
      trim_to_current_stack_frame self current = self.take (self.length - n) := by
  obtain ⟨s, hcat, hsfx, _⟩ := trim_loop_spec self.length self current (Nat.le_refl _)
  have hsA : s <:+ self := ⟨trim_to_current_stack_frame self current, hcat⟩
  exact ⟨s.length, le_min hsA.length_le hsfx.length_le,
    append_eq_take _ _ _ hcat⟩

/-- C10 witness: the bound at a concrete pair of stacks. -/
theorem trim_terminates_bounded_witness :
    ∃ n : Nat, n ≤ min ([8, 2, 3] : List Addr).length ([2, 3] : List Addr).length ∧
      trim_to_current_stack_frame [8, 2, 3] [2, 3]
        = ([8, 2, 3] : List Addr).take (([8, 2, 3] : List Addr).length - n) :=
  trim_terminates_bounded [8, 2, 3] [2, 3]

/-- Capture via `backtrace_simple` appends the walked frames to whatever the analyzer's
`stack_addrs` already held. -/
theorem analyze_backtrace_eq (stack_addrs frames : List Addr) :
    analyze_backtrace stack_addrs frames = stack_addrs ++ frames := by
  induction frames generalizing stack_addrs with
  | nil => simp [analyze_backtrace]
  | cons a l ih =>
    simp only [analyze_backtrace, List.foldl_cons] at ih ⊢
    rw [ih (backtrace_simple_callback stack_addrs a)]
    simp [backtrace_simple_callback]

/-- The backward index loop, run from index `n ≤ length`, emits the first `n`
elements in reverse order. -/
theorem emit_backward_take {α : Type} [Inhabited α] (xs : List α) :
    ∀ n : Nat, n ≤ xs.length → emit_backward xs n = (xs.take n).reverse := by
  intro n
  induction n with
  | zero => intro _; simp [emit_backward]
  | succ n ih =>
    intro h
    have hn : n < xs.length := by omega
    rw [emit_backward, ih (by omega), List.take_succ, List.getElem?_eq_getElem hn]
    have hd : xs.getD n default = xs[n] := by
      rw [List.getD_eq_getElem?_getD, List.getElem?_eq_getElem hn]
      rfl
    rw [hd]
    rw [Option.toList_some, List.reverse_append, List.reverse_singleton,
      List.singleton_append]

/-- The backward index loop started at the full length reverses the list. -/
theorem emit_backward_eq_reverse {α : Type} [Inhabited α] (xs : List α) :
    emit_backward xs xs.length = xs.reverse := by
  rw [emit_backward_take xs xs.length (Nat.le_refl _), List.take_length]

/-- The storing loop appends exactly the buffer elements of index ≥ `m`. -/
theorem store_loop_eq (m : Nat) (buffer : List Addr) :
    ∀ (stack_addrs : List Addr) (idx : Nat),
      store_loop m buffer stack_addrs idx = stack_addrs ++ buffer.drop (m - idx) := by
  induction buffer with
  | nil => intro stack_addrs idx; simp [store_loop]
  | cons a l ih =>
    intro stack_addrs idx
    rw [store_loop]
    by_cases hk : idx ≥ m
    · rw [if_pos hk, ih]
      have h1 : m - idx = 0 := by omega
      have h2 : m - (idx + 1) = 0 := by omega
      simp [h1, h2]
    · rw [if_neg hk, ih]
      have h1 : m - idx = (m - (idx + 1)) + 1 := by omega
      rw [h1, List.drop_succ_cons]

/-- With the fuel used by `analyze_posix`, the buffer-doubling loop always
ends with a capacity strictly above the frame count, hence returns the full
captured frame sequence. -/
theorem analyze_posix_loop_eq (frames : List Addr) :
    ∀ (fuel size : Nat), 1 ≤ size → frames.length < size + fuel →
      analyze_posix_loop frames fuel size = frames := by
  intro fuel
  induction fuel with
  | zero =>
    intro size h1 h2
    rw [analyze_posix_loop]
    have hmin : backtrace_prim frames size = frames.length := by
      unfold backtrace_prim
      omega
    rw [hmin, List.take_length]
  | succ fuel ih =>
    intro size h1 h2
    rw [analyze_posix_loop]
    by_cases hlt : backtrace_prim frames size < size
    · rw [if_pos hlt]
      have hmin : backtrace_prim frames size = frames.length := by
        unfold backtrace_prim at hlt ⊢
        omega
      rw [hmin, List.take_length]
    · rw [if_neg hlt]
      unfold backtrace_prim at hlt
      exact ih (size * 2) (by omega) (by omega)

/-- Closed form of the POSIX `analyze`: append the post-skip frames, then pop
the entry frames off the back. -/
theorem analyze_posix_eq (stack_addrs frames : List Addr) :
    analyze_posix stack_addrs frames
      = pop_back_n (stack_addrs ++ frames.drop base_skip_frames)
          skip_entry_frames := by
  unfold analyze_posix
  rw [analyze_posix_loop_eq frames (frames.length + 1) 64 (by omega) (by omega)]
  simp only [store_loop_eq]
  simp

/-- Every record built by `backtrace_pcinfo_callback` carries the queried pc. -/
theorem backtrace_pcinfo_callback_pc (env : BacktraceEnv) (pc : Addr)
    (filename : Option String) (lineno : Nat) (function : Option String) :
    (backtrace_pcinfo_callback env pc filename lineno function).pc = pc := by
  cases function <;> rfl

/-- C2 (code bug): on a fresh instance, when the POSIX unwind primitive
reports zero frames (or fewer frames than the configured skip counts), the
POSIX `analyze` executes `pop_back` on an empty vector — undefined behaviour
(`none`) — instead of completing with an empty sequence; the Windows backend
handles the same situation by leaving an empty sequence. -/
theorem analyze_posix_empty_capture_underflows :
    analyze_posix [] [] = none ∧
    analyze_posix [] [10] = none ∧
    analyze_win32 [] [] = [] := by
  decide

/-- C7 counterexample: with prior content [5] in `stack_addrs`, the
libbacktrace `analyze` (capturing [7]) and the POSIX `analyze` (capturing
[7, 8, 9]) append to the prior content rather than overwriting it, so the
resulting sequence is not the freshly captured one and a prior entry
remains. -/
theorem analyze_appends_counterexample :
    analyze_backtrace [5] [7] = [5, 7] ∧ ([5, 7] : List Addr) ≠ [7] ∧
    analyze_posix [5] [7, 8, 9] = some [5, 8] ∧
    analyze_posix [] [7, 8, 9] = some [8] := by
  decide

/-- C7 (amended): `analyze` appends the captured addresses in the
libbacktrace and POSIX backends and overwrites in the Windows backend, so on
a freshly constructed instance (empty prior sequence) the sequence after
`analyze` is exactly the freshly captured post-skip address sequence; and the
trim operation only truncates the receiver from the end. -/
theorem analyze_fresh_and_trim_truncates (pcs frames prior prior' self current : List Addr) :
    analyze_backtrace [] pcs = pcs ∧
    analyze_win32 prior frames = analyze_win32 prior' frames ∧
    (2 ≤ frames.length →
      analyze_posix [] frames = some ((frames.drop base_skip_frames).dropLast)) ∧
    (∃ n : Nat, trim_to_current_stack_frame self current = self.take n) := by
  refine ⟨by simpa using analyze_backtrace_eq [] pcs, rfl, ?_, ?_⟩
  · intro hlen
    rw [analyze_posix_eq]
    have hne : frames.drop base_skip_frames ≠ [] := by
      intro hcon
      have := congrArg List.length hcon
      simp [base_skip_frames] at this
      omega
    simp only [skip_entry_frames, pop_back_n, List.nil_append, if_neg hne]
  · obtain ⟨s, hcat, _, _⟩ :=
      trim_loop_spec self.length self current (Nat.le_refl _)
    exact ⟨self.length - s.length, append_eq_take _ _ _ hcat⟩

/-- C7 witness: the amended statement at concrete stacks. -/
theorem analyze_fresh_and_trim_truncates_witness :
    analyze_backtrace [] [7] = [7] ∧
    analyze_win32 [5] [7, 8, 9] = analyze_win32 [] [7, 8, 9] ∧
    (2 ≤ ([7, 8, 9] : List Addr).length →
      analyze_posix [] [7, 8, 9]
        = some ((([7, 8, 9] : List Addr).drop base_skip_frames).dropLast)) ∧
    (∃ n : Nat, trim_to_current_stack_frame [1, 2] [9, 2] = List.take n [1, 2]) :=
  analyze_fresh_and_trim_truncates [7] [7, 8, 9] [5] [] [1, 2] [9, 2]

/-- C8: the POSIX `analyze` doubles the buffer capacity whenever the reported
frame count meets-or-exceeds it, retrying until the count is strictly below
the capacity (with the fuel used, the loop returns the full captured
sequence); it then stores the capture minus the first `base_skip_frames`
entries and pops `skip_entry_frames` entries off the back. -/
theorem analyze_posix_doubles_and_trims (frames : List Addr)
    (hlen : 2 ≤ frames.length) :
    analyze_posix_loop frames (frames.length + 1) 64 = frames ∧
    analyze_posix [] frames
      = some ((frames.drop base_skip_frames).dropLast) := by
  refine ⟨analyze_posix_loop_eq frames (frames.length + 1) 64 (by omega) (by omega), ?_⟩
  rw [analyze_posix_eq]
  have hne : frames.drop base_skip_frames ≠ [] := by
    intro hcon
    have := congrArg List.length hcon
    simp [base_skip_frames] at this
    omega
  simp only [skip_entry_frames, pop_back_n, List.nil_append, if_neg hne]

/-- C8 witness: the doubling loop and final state at a concrete capture. -/
theorem analyze_posix_doubles_and_trims_witness :
    2 ≤ ([21, 22, 23] : List Addr).length ∧
    (analyze_posix_loop [21, 22, 23] (([21, 22, 23] : List Addr).length + 1) 64
        = [21, 22, 23] ∧
      analyze_posix [] [21, 22, 23]
        = some ((([21, 22, 23] : List Addr).drop base_skip_frames).dropLast)) :=
  ⟨by decide, analyze_posix_doubles_and_trims [21, 22, 23] (by decide)⟩

/-- C9: in the fallback backends every delivered record has empty filename,
line 0, and a function name obtained solely from `util::symbol_name`; the
records' addresses are exactly the captured sequence, in capture order for
`reversed = false` and in reverse order for `reversed = true`. -/
theorem get_symbols_fallback_spec (symbol_name : Addr → String)
    (stack_addrs : List Addr) (reversed : Bool) :
    ((get_symbols_fallback symbol_name stack_addrs reversed).map backtrace_symbol.pc
      = if reversed then stack_addrs.reverse else stack_addrs) ∧
    ∀ r ∈ get_symbols_fallback symbol_name stack_addrs reversed,
      r.filename = "" ∧ r.lineno = 0 ∧ r.functionname = symbol_name r.pc := by
  have hpc : ∀ l : List Addr,
      (l.map (fallback_symbol symbol_name)).map backtrace_symbol.pc = l := by
    intro l
    induction l with
    | nil => rfl
    | cons a l ih =>
      simp only [List.map_cons, ih]
      rfl
  constructor
  · cases reversed with
    | false => exact hpc stack_addrs
    | true =>
      show ((emit_backward stack_addrs stack_addrs.length).map
        (fallback_symbol symbol_name)).map backtrace_symbol.pc = stack_addrs.reverse
      rw [emit_backward_eq_reverse]
      exact hpc _
  · intro r hr
    have hmem : ∃ pc, r = fallback_symbol symbol_name pc := by
      cases reversed with
      | false =>
        rw [show get_symbols_fallback symbol_name stack_addrs false
          = stack_addrs.map (fallback_symbol symbol_name) from rfl] at hr
        obtain ⟨pc, _, hpc'⟩ := List.mem_map.mp hr
        exact ⟨pc, hpc'.symm⟩
      | true =>
        rw [show get_symbols_fallback symbol_name stack_addrs true
          = (emit_backward stack_addrs stack_addrs.length).map
            (fallback_symbol symbol_name) from rfl,
          emit_backward_eq_reverse] at hr
        obtain ⟨pc, _, hpc'⟩ := List.mem_map.mp hr
        exact ⟨pc, hpc'.symm⟩
    obtain ⟨pc, rfl⟩ := hmem
    exact ⟨rfl, rfl, rfl⟩

/-- C9 witness: concrete fallback resolution, reversed traversal. -/
theorem get_symbols_fallback_spec_witness :
    ((get_symbols_fallback (fun _ => "sym") [3, 4] true).map backtrace_symbol.pc
      = if true then ([3, 4] : List Addr).reverse else [3, 4]) ∧
    ∀ r ∈ get_symbols_fallback (fun _ => "sym") [3, 4] true,
      r.filename = "" ∧ r.lineno = 0 ∧ r.functionname = (fun _ => "sym") r.pc :=
  get_symbols_fallback_spec (fun _ => "sym") [3, 4] true

/-- C6: in both the libbacktrace backend and the fallback backends, the
record sequence delivered with `reversed = true` is exactly the reverse of
the sequence delivered with `reversed = false`, for every environment and
captured address sequence (record-level reversal, so this also covers
multi-record expansion). -/
theorem get_symbols_reversed_symmetry (env : BacktraceEnv)
    (stack_addrs : List Addr) (symbol_name : Addr → String)
    (stack_addrs' : List Addr) :
    get_symbols_backtrace env stack_addrs true
      = (get_symbols_backtrace env stack_addrs false).reverse ∧
    get_symbols_fallback symbol_name stack_addrs' true
      = (get_symbols_fallback symbol_name stack_addrs' false).reverse := by
  constructor
  · exact emit_backward_eq_reverse _
  · show (emit_backward stack_addrs' stack_addrs'.length).map
        (fallback_symbol symbol_name)
      = (stack_addrs'.map (fallback_symbol symbol_name)).reverse
    rw [emit_backward_eq_reverse, List.map_reverse]

/-- C1 counterexample: address 7 is in the captured sequence, but in an
environment reporting a general internal library error for it (errorno 5,
not the distinguished -1), `get_symbols` delivers no record at all for that
address — the error is only logged on the diagnostic side channel. -/
theorem get_symbols_drops_on_error :
    (7 : Addr) ∈ [7] ∧
    get_symbols_backtrace env_internal_error [7] false = [] ∧
    (backtrace_pcinfo env_internal_error 7).2
      = [⟨"malformed debug section", 5⟩] := by
  decide

/-- C1 (amended): every address of the captured sequence whose debug-info
query invokes the full callback at least once, or reports the distinguished
not-found condition with the symbol-table query answering, receives at least
one SymbolRecord carrying that address, regardless of how resolution of the
other addresses fares (no per-address failure aborts the batch); in the
not-found case the record carries the fallback fields, empty filename and
line 0.  A general per-address library error, by contrast, drops that
address's record (counterexample above). -/
theorem get_symbols_covers_resolvable (env : BacktraceEnv)
    (stack_addrs : List Addr) (pc : Addr) (hmem : pc ∈ stack_addrs)
    (hres : (∃ c cs, env.pcinfo pc = .info (c :: cs)) ∨
      ((∃ m, env.pcinfo pc = .fail m (-1)) ∧ ∃ n, env.syminfo pc = .found n)) :
    ∃ r ∈ get_symbols_backtrace env stack_addrs false,
      r.pc = pc ∧
      (∀ m, env.pcinfo pc = .fail m (-1) →
        r.filename = "" ∧ r.lineno = 0) := by
  have key : ∃ r ∈ (backtrace_pcinfo env pc).1,
      r.pc = pc ∧
      (∀ m, env.pcinfo pc = .fail m (-1) →
        r.filename = "" ∧ r.lineno = 0) := by
    rcases hres with ⟨c, cs, hinfo⟩ | ⟨⟨m, hfail⟩, n, hfound⟩
    · refine ⟨backtrace_pcinfo_callback env pc c.1 c.2.1 c.2.2, ?_,
        backtrace_pcinfo_callback_pc env pc c.1 c.2.1 c.2.2, ?_⟩
      · simp only [backtrace_pcinfo, hinfo, List.map_cons]
        exact List.mem_cons_self _ _
      · intro m hm
        rw [hinfo] at hm
        exact PcinfoOutcome.noConfusion hm
    · refine ⟨backtrace_syminfo_callback env pc n, ?_, rfl, fun _ _ => ⟨rfl, rfl⟩⟩
      simp only [backtrace_pcinfo, hfail, backtrace_pcinfo_error_callback,
        if_pos rfl, hfound]
      exact List.mem_singleton_self _
  obtain ⟨r, hrmem, hrpc⟩ := key
  exact ⟨r, List.mem_flatMap.mpr ⟨pc, hmem, hrmem⟩, hrpc⟩

/-- C1 witness: debug info absent but symbol table answering — the sole
captured address receives a record with the fallback fields. -/
theorem get_symbols_covers_resolvable_witness :
    ∃ r ∈ get_symbols_backtrace env_no_debug_info [7] false,
      r.pc = 7 ∧
      (∀ m, env_no_debug_info.pcinfo 7 = .fail m (-1) →
        r.filename = "" ∧ r.lineno = 0) :=
  get_symbols_covers_resolvable env_no_debug_info [7] 7 (by simp)
    (Or.inr ⟨⟨"no debug info", rfl⟩, some "mangled_name", rfl⟩)

/-- C3 counterexample: for a stripped binary (debug info entirely absent and
the symbol table yielding nothing), the delivered function name is the empty
string — the code does not fall back further to the generic
address-to-symbol-name utility, whose result here would be "generic_name". -/
theorem resolution_no_generic_after_syminfo :
    get_symbols_backtrace env_stripped [7] false = [⟨"", 0, "", 7⟩] ∧
    env_stripped.symbol_name 7 = "generic_name" ∧
    ("" : String) ≠ "generic_name" := by
  decide

/-- C3 (amended): the per-address precedence in the libbacktrace backend is:
debug info with a function name gives file, line and the demangled function;
debug info present but with a null function name gives the generic
`util::symbol_name` utility; debug info entirely absent (the distinguished
not-found condition) gives symbol-table lookup, yielding the demangled
symbol name or the empty string — with no further fallback to the generic
utility. -/
theorem resolution_cascade (env : BacktraceEnv) (pc : Addr) :
    (∀ filename lineno f,
      env.pcinfo pc = .info [(filename, lineno, some f)] →
      (backtrace_pcinfo env pc).1
        = [⟨filename.getD "", lineno, env.demangle f, pc⟩]) ∧
    (∀ filename lineno,
      env.pcinfo pc = .info [(filename, lineno, none)] →
      (backtrace_pcinfo env pc).1 = [⟨"", 0, env.symbol_name pc, pc⟩]) ∧
    (∀ m, env.pcinfo pc = .fail m (-1) →
      (backtrace_pcinfo env pc).1 = (match env.syminfo pc with
        | .found (some s) => [⟨"", 0, env.demangle s, pc⟩]
        | .found none => [⟨"", 0, "", pc⟩]
        | .fail _ _ => [])) := by
  refine ⟨?_, ?_, ?_⟩
  · intro filename lineno f h
    simp only [backtrace_pcinfo, h, List.map_cons, List.map_nil,
      backtrace_pcinfo_callback]
  · intro filename lineno h
    simp only [backtrace_pcinfo, h, List.map_cons, List.map_nil,
      backtrace_pcinfo_callback]
  · intro m h
    simp only [backtrace_pcinfo, h, backtrace_pcinfo_error_callback, if_pos rfl]
    cases hsym : env.syminfo pc with
    | found n => cases n <;> simp [backtrace_syminfo_callback]
    | fail m' e' => simp

/-- C3 witness: the three cascade branches at concrete environments. -/
theorem resolution_cascade_witness :
    (backtrace_pcinfo env_full_info 7).1
      = [⟨(some "file.cpp").getD "", 42, env_full_info.demangle "mangled_name", 7⟩] ∧
    (backtrace_pcinfo env_info_no_function 7).1
      = [⟨"", 0, env_info_no_function.symbol_name 7, 7⟩] ∧
    (backtrace_pcinfo env_stripped 7).1 = (match env_stripped.syminfo 7 with
      | .found (some s) => [⟨"", 0, env_stripped.demangle s, 7⟩]
      | .found none => [⟨"", 0, "", 7⟩]
      | .fail _ _ => []) :=
  ⟨(resolution_cascade env_full_info 7).1 (some "file.cpp") 42 "mangled_name" rfl,
   (resolution_cascade env_info_no_function 7).2.1 none 0 rfl,
   (resolution_cascade env_stripped 7).2.2 "no debug info" rfl⟩

end Openage
